import Mathlib

/-!
Shallow embedding of the `fbd_sequencer` crate (`src/lib.rs`): a 3-channel PSG
music sequencer.  Machine integers are modelled as `Nat`/`Int`; where the Rust
code can overflow or underflow a fixed-width integer, the release-mode
wraparound is made explicit with `% 2^w`.  The external `DataAccessor` trait is
modelled as a function `Nat → Nat` (byte values are reduced `% 256` at every
read, and indices `% 65536`, matching the `u16` index space).  Register writes
to the external `PsgTrait` sink are collected as an explicit event trace.
Loops in the source that are not structurally bounded (the bytecode consume
loop, the patch-table scan, the title scan, the sample-production loop) take a
fuel parameter and return `Option`, with `none` for fuel exhaustion.
-/

/-- `DataAccessor::read_byte`: byte values are `u8`, indices `u16`. -/
def readByte (blob : Nat → Nat) (i : Nat) : Nat :=
  blob (i % 65536) % 256

/-- `DataAccessor::read_short`: little-endian 16-bit read (contract of the
external trait; the test implementation reads two consecutive bytes LE). -/
def readShort (blob : Nat → Nat) (i : Nat) : Nat :=
  readByte blob i + 256 * readByte blob ((i + 1) % 65536)

/-- Reinterpret a 16-bit unsigned value as a signed `i16` (the
`as i16` cast in `Part::next_signed_short`). -/
def toI16 (x : Nat) : Int :=
  if x % 65536 < 32768 then (x % 65536 : Int) else (x % 65536 : Int) - 65536

/-- Release-mode wraparound of an `i16` arithmetic result. -/
def wrap16 (z : Int) : Int :=
  (z + 32768) % 65536 - 32768

/-! ## SamplesPerTick (`SamplesPerTick` in lib.rs, lines 437-477)

`INTERVAL_RATIO_X100 = 5994`; the tick rate is `sample_rate * 100 / 5994`
samples per tick, realised by a Bresenham-style error accumulator. -/

structure SamplesPerTick where
  remainder : Nat
  quotient : Nat
  error : Int
  samples : Nat
deriving DecidableEq

/-- `SamplesPerTick::next`: add the remainder into the running error; a
nonnegative error emits one extra sample and pulls the error back down. -/
def sptNext (s : SamplesPerTick) : SamplesPerTick :=
  if 0 ≤ s.error + s.remainder then
    ⟨s.remainder, s.quotient, s.error + s.remainder - 5994, s.quotient + 1⟩
  else
    ⟨s.remainder, s.quotient, s.error + s.remainder, s.quotient⟩

/-- The state built by `SamplesPerTick::new` just before the priming
`next()` call.  `sample_rate * 100` is a `u32` product, hence the
explicit wraparound `% 2^32`. -/
def sptInit (sample_rate : Nat) : SamplesPerTick :=
  let sample_rate_x100 := sample_rate * 100 % 4294967296
  ⟨sample_rate_x100 % 5994, sample_rate_x100 / 5994, -5994, 0⟩

/-- `SamplesPerTick::new` (constructor followed by one priming `next()`). -/
def sptNew (sample_rate : Nat) : SamplesPerTick :=
  sptNext (sptInit sample_rate)

/-- `SamplesPerTick::consume`: subtract the produced samples from the budget
and report whether the current tick still has samples left.  The caller only
ever passes `samples ≤ self.samples`, so `Nat` subtraction is exact. -/
def sptConsume (s : SamplesPerTick) (n : Nat) : SamplesPerTick × Bool :=
  (⟨s.remainder, s.quotient, s.error, s.samples - n⟩, decide (s.samples - n ≠ 0))

/-- The converter state after the priming call plus `k - 1` further `next()`
calls; `(sptIter sr k).samples` for `k ≥ 1` is the sample count of tick `k`. -/
def sptIter (sample_rate : Nat) : Nat → SamplesPerTick
  | 0 => sptInit sample_rate
  | k + 1 => sptNext (sptIter sample_rate k)

/-- Total number of samples emitted for the first `n` ticks. -/
def sumCounts (sample_rate : Nat) : Nat → Nat
  | 0 => 0
  | n + 1 => sumCounts sample_rate n + (sptIter sample_rate (n + 1)).samples

lemma sptIter_quotient (sr n : Nat) :
    (sptIter sr n).quotient = sr * 100 % 4294967296 / 5994 := by
  induction n with
  | zero => rfl
  | succ n ih =>
    simp only [sptIter, sptNext]
    split <;> simpa using ih

lemma sptIter_remainder (sr n : Nat) :
    (sptIter sr n).remainder = sr * 100 % 4294967296 % 5994 := by
  induction n with
  | zero => rfl
  | succ n ih =>
    simp only [sptIter, sptNext]
    split <;> simpa using ih

/-- Bresenham invariant for the rate divider: writing `R` for the (wrapped)
value of `sample_rate * 100` and `S n` for the samples emitted over the first
`n` ticks, `5994 * S n + 5994 + error n = n * R` with the error always in
`[-5994, 0)`. -/
lemma sptIter_invariant (sr : Nat) (n : Nat) :
    (5994 : Int) * sumCounts sr n + 5994 + (sptIter sr n).error
      = n * (sr * 100 % 4294967296 : Nat) ∧
    -5994 ≤ (sptIter sr n).error ∧ (sptIter sr n).error < 0 := by
  induction n with
  | zero =>
    refine ⟨?_, by simp [sptIter, sptInit], by simp [sptIter, sptInit]⟩
    simp [sptIter, sptInit, sumCounts]
  | succ n ih =>
    obtain ⟨hsum, hlo, hhi⟩ := ih
    have hq := sptIter_quotient sr n
    have hr := sptIter_remainder sr n
    have hrlt : ((sptIter sr n).remainder : Int) < 5994 := by
      rw [hr]; exact_mod_cast Nat.mod_lt _ (show 0 < 5994 by norm_num)
    have hdmz : (5994 : Int) * ((sr * 100 % 4294967296) / 5994 : Nat)
        + ((sr * 100 % 4294967296) % 5994 : Nat)
        = ((sr * 100 % 4294967296 : Nat) : Int) := by
      exact_mod_cast Nat.div_add_mod (sr * 100 % 4294967296) 5994
    simp only [sptIter, sumCounts, sptNext]
    split_ifs with h
    · -- error went nonnegative: emit quotient + 1, pull the error back down
      dsimp only
      refine ⟨?_, by omega, by omega⟩
      push_cast [hq, hr] at hsum ⊢
      push_cast at hdmz
      linarith [hsum, hdmz]
    · dsimp only
      refine ⟨?_, by omega, by omega⟩
      push_cast [hq, hr] at hsum ⊢
      push_cast at hdmz
      linarith [hsum, hdmz]

/-- Round-to-nearest (ties up) of the rational `a / b`, for positive `b`. -/
def roundDiv (a b : Int) : Int :=
  (2 * a + b) / (2 * b)

lemma window_round_bound (W e1 e2 P : Int)
    (h1 : 5994 * W = P + e2 - e1)
    (hlo1 : -5994 ≤ e1) (hhi1 : e1 < 0) (hlo2 : -5994 ≤ e2) (hhi2 : e2 < 0) :
    -1 ≤ W - roundDiv P 5994 ∧ W - roundDiv P 5994 ≤ 1 := by
  unfold roundDiv
  omega

/-- C1 (amended: the guarantee requires `sample_rate * 100` to fit in `u32`,
i.e. `sample_rate ≤ 42949672`; `SamplesPerTick::new` computes `sample_rate *
100` in `u32`, so larger rates wrap and the emitted counts track the wrapped
ratio instead).  Under that bound, every per-tick count is the quotient
`sample_rate * 100 / 5994` or that quotient plus one; the running total over
the first `N` ticks never diverges from the exact rational `N * sample_rate *
100 / 5994` by as much as one sample; and the sum over any `N` consecutive
ticks equals `round(sample_rate * N * 100 / 5994)` within plus-or-minus 1. -/
theorem samplesPerTick_drift_bounded (sr N m : Nat) (h : sr * 100 < 4294967296) :
    ((sptIter sr (N + 1)).samples = sr * 100 / 5994 ∨
      (sptIter sr (N + 1)).samples = sr * 100 / 5994 + 1) ∧
    ((N : Int) * (sr * 100) - 5994 < 5994 * sumCounts sr N ∧
      (5994 : Int) * sumCounts sr N ≤ (N : Int) * (sr * 100)) ∧
    (-1 ≤ ((sumCounts sr (m + N) : Int) - sumCounts sr m)
        - roundDiv ((N : Int) * (sr * 100)) 5994 ∧
      ((sumCounts sr (m + N) : Int) - sumCounts sr m)
        - roundDiv ((N : Int) * (sr * 100)) 5994 ≤ 1) := by
  have hmod : sr * 100 % 4294967296 = sr * 100 := Nat.mod_eq_of_lt h
  refine ⟨?_, ?_, ?_⟩
  · have hq := sptIter_quotient sr N
    rw [hmod] at hq
    show (sptNext (sptIter sr N)).samples = _ ∨ (sptNext (sptIter sr N)).samples = _
    unfold sptNext
    split
    · right; simpa using hq
    · left; simpa using hq
  · obtain ⟨hsum, hlo, hhi⟩ := sptIter_invariant sr N
    rw [hmod] at hsum
    push_cast at hsum ⊢
    constructor <;> linarith [hsum, hlo, hhi]
  · obtain ⟨h1, lo1, hi1⟩ := sptIter_invariant sr (m + N)
    obtain ⟨h2, lo2, hi2⟩ := sptIter_invariant sr m
    rw [hmod] at h1 h2
    push_cast at h1 h2 ⊢
    have hW : 5994 * (((sumCounts sr (m + N) : Int)) - sumCounts sr m)
        = (N : Int) * ((sr : Int) * 100) + (sptIter sr m).error
          - (sptIter sr (m + N)).error := by linarith [h1, h2]
    have hwr := window_round_bound
      (((sumCounts sr (m + N) : Int)) - sumCounts sr m)
      ((sptIter sr (m + N)).error) ((sptIter sr m).error)
      ((N : Int) * ((sr : Int) * 100))
      (by linarith [hW]) lo1 hi1 lo2 hi2
    exact ⟨by linarith [hwr.1], by linarith [hwr.2]⟩

theorem samplesPerTick_drift_bounded_witness :
    44100 * 100 < 4294967296 ∧
    (((sptIter 44100 4).samples = 44100 * 100 / 5994 ∨
      (sptIter 44100 4).samples = 44100 * 100 / 5994 + 1) ∧
    (((3 : Nat) : Int) * (44100 * 100) - 5994 < 5994 * sumCounts 44100 3 ∧
      (5994 : Int) * sumCounts 44100 3 ≤ ((3 : Nat) : Int) * (44100 * 100)) ∧
    (-1 ≤ ((sumCounts 44100 (2 + 3) : Int) - sumCounts 44100 2)
        - roundDiv (((3 : Nat) : Int) * (44100 * 100)) 5994 ∧
      ((sumCounts 44100 (2 + 3) : Int) - sumCounts 44100 2)
        - roundDiv (((3 : Nat) : Int) * (44100 * 100)) 5994 ≤ 1)) :=
  ⟨by norm_num, samplesPerTick_drift_bounded 44100 3 2 (by norm_num)⟩

/-- C1 counterexample to "for every sample_rate": at `sample_rate = 100000000`
the `u32` product `sample_rate * 100` wraps to `1410065408`, so the first tick
emits `235246` samples although the exact ratio `100000000 * 100 / 5994`
demands about 1668335 per tick: already at `N = 1` the running total falls
short of the exact rational by far more than one sample. -/
theorem samplesPerTick_drift_counterexample :
    (sptIter 100000000 1).samples = 235246 ∧
    5994 * (sumCounts 100000000 1 : Int) + 5994 < 1 * (100000000 * 100) := by
  constructor
  · rfl
  · norm_num [show sumCounts 100000000 1 = 235246 from rfl]

/-! ## Envelope (lib.rs lines 33-125) -/

inductive EnvelopePhase where
  | attack
  | decay
  | sustain
  | release
deriving DecidableEq

structure Envelope where
  current : Nat
  phase : EnvelopePhase
  al : Nat
  ar : Nat
  dr : Nat
  sl : Nat
  sr : Nat
  rr : Nat
deriving DecidableEq

/-- `Envelope::new`. -/
def envNew : Envelope :=
  ⟨0, .attack, 255, 255, 0, 0, 0, 255⟩

/-- `Envelope::set`: linear scan over 7-byte patch records until the patch
number or the `0xFF` sentinel; fuel bounds the unbounded scan. -/
def envSet (blob : Nat → Nat) (patch_number : Nat) (e : Envelope) :
    Nat → Nat → Option Envelope
  | 0, _ => none
  | fuel + 1, index =>
    let l := readByte blob index
    if l = patch_number then
      some { e with
        al := readByte blob (index + 1), ar := readByte blob (index + 2),
        dr := readByte blob (index + 3), sl := readByte blob (index + 4),
        sr := readByte blob (index + 5), rr := readByte blob (index + 6) }
    else if l = 0xFF then some e
    else envSet blob patch_number e fuel (index + 7)

/-- `Envelope::attack`. -/
def envAttack (e : Envelope) : Envelope :=
  { e with current := e.al,
           phase := if e.al ≠ 255 then .attack else .decay }

/-- `Envelope::release`. -/
def envRelease (e : Envelope) : Envelope :=
  { e with phase := .release }

/-- `Envelope::update`: `checked_add` overflow clamps to 255 and moves to
decay; the three downward phases use `saturating_sub` (exactly `Nat`
truncated subtraction). -/
def envUpdate (e : Envelope) : Envelope :=
  match e.phase with
  | .attack =>
    if e.current + e.ar ≤ 255 then { e with current := e.current + e.ar }
    else { e with current := 255, phase := .decay }
  | .decay =>
    if e.current - e.dr < e.sl then { e with current := e.sl, phase := .sustain }
    else { e with current := e.current - e.dr }
  | .sustain => { e with current := e.current - e.sr }
  | .release => { e with current := e.current - e.rr }

/-! ## PitchLFO (lib.rs lines 127-192) -/

structure PitchLFO where
  displacement : Int
  delay : Nat
  speed : Nat
  depth : Nat
  is_enable : Bool
  effect : Int
  current_displacement : Int
  wait_count : Nat
  depth_count : Nat
deriving DecidableEq

/-- `PitchLFO::new`. -/
def lfoNew : PitchLFO :=
  ⟨0, 0, 0, 0, false, 0, 0, 0, 0⟩

/-- `PitchLFO::reset`. -/
def lfoReset (l : PitchLFO) : PitchLFO :=
  { l with wait_count := l.delay, depth_count := l.depth / 2,
           current_displacement := l.displacement, effect := 0 }

/-- `PitchLFO::set_enable`. -/
def lfoSetEnable (l : PitchLFO) (is_enable : Bool) : PitchLFO :=
  lfoReset { l with is_enable := is_enable }

/-- `PitchLFO::set_parameter`. -/
def lfoSetParameter (l : PitchLFO) (delay speed depth : Nat)
    (displacement : Int) : PitchLFO :=
  lfoReset { l with is_enable := true, delay := delay, speed := speed,
                    depth := depth, displacement := displacement }

/-- `PitchLFO::update`, with the release-mode wraparound of the two `u8`
decrements (`wait_count -= 1`, `depth_count -= 1`) and of the `i16`
accumulation/negation made explicit.  Returns the new state and whether the
effect changed this tick. -/
def lfoUpdate (l : PitchLFO) : PitchLFO × Bool :=
  if !l.is_enable then (l, false)
  else if (l.wait_count + 255) % 256 ≠ 0 then
    ({ l with wait_count := (l.wait_count + 255) % 256 }, false)
  else if (l.depth_count + 255) % 256 = 0 then
    ({ l with wait_count := l.speed,
              effect := wrap16 (l.effect + l.current_displacement),
              depth_count := l.depth,
              current_displacement := wrap16 (-l.current_displacement) }, true)
  else
    ({ l with wait_count := l.speed,
              effect := wrap16 (l.effect + l.current_displacement),
              depth_count := (l.depth_count + 255) % 256 }, true)

/-- Exactly the configurations in which the Rust `PitchLFO::update` body
performs a `u8` subtraction that underflows (a panic under debug assertions,
a wraparound in release builds): the LFO is enabled and either `wait_count`
is already 0 when `wait_count -= 1` runs, or the update fires
(`wait_count == 1`) while `depth_count` is 0 when `depth_count -= 1` runs. -/
def lfoUpdateUnderflows (l : PitchLFO) : Bool :=
  l.is_enable && (l.wait_count = 0 || (l.wait_count = 1 && l.depth_count = 0))

/-- `n` successive once-per-tick `update()` calls. -/
def lfoUpdateIter (l : PitchLFO) : Nat → PitchLFO
  | 0 => l
  | n + 1 => (lfoUpdate (lfoUpdateIter l n)).1

/-! ## RepeatStack (lib.rs lines 194-245): `ArrayDeque<Repeat, 8>` used as a
LIFO with `push_front`/`front`/`pop_front`; modelled as a list whose head is
the top frame, with pushes beyond 8 frames dropped. -/

structure Repeat where
  start : Nat
  end_ : Option Nat
  count : Nat
deriving DecidableEq

/-- `RepeatStack::start`: `push_front` on a full deque fails and the
`let _ =` discards the error, dropping the frame. -/
def repeatStart (s : List Repeat) (count current_index : Nat) : List Repeat :=
  if s.length < 8 then ⟨current_index, none, count⟩ :: s else s

/-- `RepeatStack::break_if_last`: on the final pass (`count == 1`) of a loop
whose `end` is already recorded, jump to `end` and pop the frame. -/
def breakIfLast (s : List Repeat) (current_index : Nat) : List Repeat × Nat :=
  match s with
  | [] => (s, current_index)
  | item :: rest =>
    if item.count = 1 then
      match item.end_ with
      | some e => (rest, e)
      | none => (item :: rest, current_index)
    else (item :: rest, current_index)

/-- `RepeatStack::end` (named `repeatEnd` because `end` is a Lean keyword):
returns the new stack, the new cursor and whether this closes an infinite
(`count == 0`) loop. -/
def repeatEnd (s : List Repeat) (current_index : Nat) : List Repeat × Nat × Bool :=
  match s with
  | [] => (s, current_index, false)
  | item :: rest =>
    let step := if item.count = 0 then (item, true)
                else ({ item with count := item.count - 1 }, false)
    if step.2 = true ∨ step.1.count ≠ 0 then
      ({ step.1 with end_ := some current_index } :: rest, step.1.start, step.2)
    else (rest, current_index, step.2)

/-! ## Part (lib.rs lines 247-435): per-channel bytecode interpreter.
The source struct is called `Part`; that name is taken by Mathlib, so the
state record is `PartState` here. -/

inductive OutputMode where
  | none
  | tone
  | noise
  | toneNoise
deriving DecidableEq

/-- One register write pushed to the external `PsgTrait` sink. -/
inductive PsgEvent where
  | setTonePeriod (channel : Nat) (period : Nat)
  | setVolume (channel : Nat) (volume : Nat)
  | setOutputMode (channel : Nat) (mode : OutputMode)
  | setNoisePeriod (period : Nat)
deriving DecidableEq

structure PartState where
  patch_index : Nat
  envelope : Envelope
  repeats : List Repeat
  pitch_lfo : PitchLFO
  channel_number : Nat
  next_index : Nat
  length : Nat
  is_tie : Bool
  is_end : Bool
  octave : Nat
  volume : Nat
  tone_period : Nat
  detune : Int
  infinite_loop_count : Nat
deriving DecidableEq

/-- `Part::new`. -/
def partNew (patch_index channel_number next_index : Nat) : PartState :=
  ⟨patch_index, envNew, [], lfoNew, channel_number, next_index,
   1, false, false, 0, 0, 0, 0, 0⟩

/-- `Part::split_tone_period_and_octave`: 12-entry chromatic table. -/
def splitToneAndOctave (note : Nat) : Nat × Nat :=
  ([3816, 3602, 3400, 3209, 3029, 2859, 2698, 2547, 2404, 2269, 2142, 2022].getD
     (note % 12) 0, note / 12)

/-- The tone-period value `Part::apply_tone_period` sends to the sink:
`clamp((tone_period as i16 + detune + lfo_effect) >> octave, 1, 4095)`.
The `i16` sum wraps in release mode (`wrap16`); `>>` on a (possibly
negative) `i16` is an arithmetic shift, i.e. flooring division by
`2 ^ octave` (for all reachable parts `octave ≤ 7 < 16`). -/
def applyTonePeriodVal (tone_period : Nat) (detune effect : Int)
    (octave : Nat) : Int :=
  min (max (Int.fdiv (wrap16 (tone_period + detune + effect)) (2 ^ octave)) 1) 4095

/-- `Part::apply_tone_period` as the event it pushes. -/
def partToneEvent (p : PartState) : PsgEvent :=
  .setTonePeriod p.channel_number
    (applyTonePeriodVal p.tone_period p.detune p.pitch_lfo.effect p.octave).toNat

/-- `Part::apply_volume`: `(envelope.current as u16 * volume as u16) >> 8`,
then truncated to `u8`. -/
def partVolumeEvent (p : PartState) : PsgEvent :=
  .setVolume p.channel_number (p.envelope.current * p.volume / 256 % 256)

/-- The opcode-consume loop inside `Part::tick` (the `loop { match ... } }`),
run when the duration counter reached zero.  Returns the updated part, the
register writes in order, and the `bool` the loop breaks with (`true` = still
playing).  `fuel` bounds the number of consumed opcodes; the same fuel bounds
the inner patch-table scan of opcode `0xE0`. -/
def partTickLoop (blob : Nat → Nat) : Nat → PartState → Option (PartState × List PsgEvent × Bool)
  | 0, _ => none
  | fuel + 1, p0 =>
    let data := readByte blob p0.next_index
    let p := { p0 with next_index := (p0.next_index + 1) % 65536 }
    if data ≤ 0x7F then
      -- rest for (data + 1) ticks
      let p := if p.is_tie then p else { p with envelope := envRelease p.envelope }
      some ({ p with length := data + 1 }, [], true)
    else if data ≤ 0xDF then
      -- note-on, pitch = data - 0x80
      let tpo := splitToneAndOctave (data - 0x80)
      let p := { p with tone_period := tpo.1, octave := tpo.2 }
      let p := if p.is_tie then p
               else { p with envelope := envAttack p.envelope,
                             pitch_lfo := lfoReset p.pitch_lfo }
      let p := { p with length := readByte blob p.next_index,
                        next_index := (p.next_index + 1) % 65536 }
      let p := if readByte blob p.next_index = 0xE8 then
                 { p with next_index := (p.next_index + 1) % 65536, is_tie := true }
               else { p with is_tie := false }
      some (p, [partToneEvent p, partVolumeEvent p], true)
    else match data with
      | 0xE0 =>
        let patch_number := readByte blob p.next_index
        let p := { p with next_index := (p.next_index + 1) % 65536 }
        match envSet blob patch_number p.envelope fuel p.patch_index with
        | none => none
        | some e => partTickLoop blob fuel { p with envelope := e }
      | 0xE1 =>
        partTickLoop blob fuel
          { p with volume := readByte blob p.next_index,
                   next_index := (p.next_index + 1) % 65536 }
      | 0xE2 =>
        let count := readByte blob p.next_index
        let p := { p with next_index := (p.next_index + 1) % 65536 }
        partTickLoop blob fuel { p with repeats := repeatStart p.repeats count p.next_index }
      | 0xE3 =>
        let bi := breakIfLast p.repeats p.next_index
        partTickLoop blob fuel { p with repeats := bi.1, next_index := bi.2 }
      | 0xE4 =>
        let re := repeatEnd p.repeats p.next_index
        let p := { p with repeats := re.1, next_index := re.2.1,
                          infinite_loop_count :=
                            if re.2.2 then min (p.infinite_loop_count + 1) 65535
                            else p.infinite_loop_count }
        partTickLoop blob fuel p
      | 0xE5 =>
        let period := readByte blob p.next_index
        let p := { p with next_index := (p.next_index + 1) % 65536 }
        match partTickLoop blob fuel p with
        | none => none
        | some (q, evs, b) => some (q, PsgEvent.setNoisePeriod period :: evs, b)
      | 0xE6 =>
        partTickLoop blob fuel { p with volume := min ((p.volume + 1) % 256) 15 }
      | 0xE7 =>
        partTickLoop blob fuel { p with volume := p.volume - 1 }
      | 0xE9 =>
        partTickLoop blob fuel
          { p with detune := toI16 (readShort blob p.next_index),
                   next_index := (p.next_index + 2) % 65536 }
      | 0xEA =>
        let delay := readByte blob p.next_index
        let speed := readByte blob ((p.next_index + 1) % 65536)
        let depth := readByte blob ((p.next_index + 2) % 65536)
        let displacement := toI16 (readShort blob ((p.next_index + 3) % 65536))
        partTickLoop blob fuel
          { p with pitch_lfo := lfoSetParameter p.pitch_lfo delay speed depth displacement,
                   next_index := (p.next_index + 5) % 65536 }
      | 0xEB =>
        let data := readByte blob p.next_index
        let p := { p with next_index := (p.next_index + 1) % 65536 }
        partTickLoop blob fuel { p with pitch_lfo := lfoSetEnable p.pitch_lfo (data ≠ 0) }
      | 0xEC =>
        let mode := match readByte blob p.next_index with
          | 0x01 => OutputMode.tone
          | 0x02 => OutputMode.noise
          | 0x03 => OutputMode.toneNoise
          | _ => OutputMode.none
        let p := { p with next_index := (p.next_index + 1) % 65536 }
        match partTickLoop blob fuel p with
        | none => none
        | some (q, evs, b) =>
          some (q, PsgEvent.setOutputMode p.channel_number mode :: evs, b)
      | _ =>
        -- terminator: `Part::end` silences the channel and marks it ended
        some ({ p with is_end := true },
              [PsgEvent.setVolume p.channel_number 0], false)

/-- `Part::tick`.  The `u8` decrement `self.length -= 1` wraps in release
mode, hence the explicit `(length + 255) % 256`. -/
def partTick (blob : Nat → Nat) (fuel : Nat) (p : PartState) :
    Option (PartState × List PsgEvent × Bool) :=
  if p.is_end then some (p, [], false)
  else
    let p := { p with length := (p.length + 255) % 256 }
    if p.length ≠ 0 then
      -- `update_tone_period` then `update_volume`
      let lu := lfoUpdate p.pitch_lfo
      let p := { p with pitch_lfo := lu.1 }
      let evs := if lu.2 then [partToneEvent p] else []
      let p := { p with envelope := envUpdate p.envelope }
      some (p, evs ++ [partVolumeEvent p], true)
    else partTickLoop blob fuel p

/-! ## PlayContext (lib.rs lines 479-591) -/

structure PlayContext where
  parts : List (Option PartState)
  spt : SamplesPerTick
  max_loop_count : Option Nat
deriving DecidableEq

/-- The per-part body of `PlayContext::tick`: tick each present part in
channel order; a part whose `tick` returns `false` is replaced by `None`.
Returns the updated slots, the register writes in order, and whether any
channel is still playing. -/
def pcTickParts (blob : Nat → Nat) (fuel : Nat) :
    List (Option PartState) → Option (List (Option PartState) × List PsgEvent × Bool)
  | [] => some ([], [], false)
  | none :: rest =>
    match pcTickParts blob fuel rest with
    | none => none
    | some (l, evs, b) => some (none :: l, evs, b)
  | some p :: rest =>
    match partTick blob fuel p with
    | none => none
    | some (p1, evs, b) =>
      match pcTickParts blob fuel rest with
      | none => none
      | some (l, evs2, b2) =>
        some ((if b then some p1 else none) :: l, evs ++ evs2, b || b2)

/-- `PlayContext::tick`. -/
def pcTick (blob : Nat → Nat) (fuel : Nat) (pc : PlayContext) :
    Option (PlayContext × List PsgEvent × Bool) :=
  match pcTickParts blob fuel pc.parts with
  | none => none
  | some (l, evs, b) => some ({ pc with parts := l }, evs, b)

/-- `PlayContext::is_playing`. -/
def pcIsPlaying (pc : PlayContext) : Bool :=
  pc.parts.any fun o => o.isSome

/-- `PlayContext::infinite_loop_count`: maximum over the present parts,
0 when no channel is present (`unwrap_or_default`). -/
def pcInfiniteLoopCount (pc : PlayContext) : Nat :=
  (pc.parts.filterMap (fun o => o.map (·.infinite_loop_count))).foldr max 0

/-- `PlayContext::end`: `Part::end` on every present part (a volume-0 write,
then `is_end = true`); the slots stay occupied. -/
def pcEnd (pc : PlayContext) : PlayContext × List PsgEvent :=
  ({ pc with parts := pc.parts.map (Option.map fun p => { p with is_end := true }) },
   pc.parts.filterMap (Option.map fun p => PsgEvent.setVolume p.channel_number 0))

/-- `PlayContext::apply_max_loop_count`: when a limit is set and the maximal
`infinite_loop_count` has reached it, force-end every channel and report
`true`. -/
def pcApplyMaxLoopCount (pc : PlayContext) : PlayContext × List PsgEvent × Bool :=
  match pc.max_loop_count with
  | some count =>
    if count ≤ pcInfiniteLoopCount pc then
      let e := pcEnd pc
      (e.1, e.2, true)
    else (pc, [], false)
  | none => (pc, [], false)

/-- `PlayContext::next_sample_internal`, abstracting the externally supplied
per-sample pull `f` to a count of produced samples.  Returns the number of
samples written (at most `bufferLen`), the final state, and the register
writes.  `fuel` bounds the outer `while` loop (and each `tick`). -/
def nextSamples (blob : Nat → Nat) : Nat → PlayContext → Nat →
    Option (Nat × PlayContext × List PsgEvent)
  | 0, _, _ => none
  | fuel + 1, pc, bufferLen =>
    if bufferLen = 0 then some (0, pc, [])
    else
      let fillLen := min pc.spt.samples bufferLen
      let c := sptConsume pc.spt fillLen
      let pc := { pc with spt := c.1 }
      if c.2 then
        match nextSamples blob fuel pc (bufferLen - fillLen) with
        | none => none
        | some (w, pc1, evs) => some (fillLen + w, pc1, evs)
      else
        let a := pcApplyMaxLoopCount pc
        if a.2.2 then some (fillLen, a.1, a.2.1)
        else
          match pcTick blob fuel a.1 with
          | none => none
          | some (pc2, evs2, playing) =>
            if !playing then some (fillLen, pc2, a.2.1 ++ evs2)
            else
              let pc3 := { pc2 with spt := sptNext pc2.spt }
              match nextSamples blob fuel pc3 (bufferLen - fillLen) with
              | none => none
              | some (w, pc4, evs) => some (fillLen + w, pc4, a.2.1 ++ evs2 ++ evs)

/-! ## Sequencer (lib.rs lines 612-665) -/

/-- The title-terminator scan at the top of `Sequencer::new` (`loop { if
read_byte(index) == 0 break; index += 1 }` over a wrapping `u16` index),
with fuel. -/
def findZero (blob : Nat → Nat) : Nat → Nat → Option Nat
  | 0, _ => none
  | fuel + 1, index =>
    if readByte blob index = 0 then some (index % 65536)
    else findZero blob fuel ((index + 1) % 65536)

/-- The `Sequencer` fields (the struct also stores the data accessor, which
is the ambient `blob` here). -/
structure SequencerS where
  patch_index : Nat
  part_indexes : List (Option Nat)
deriving DecidableEq

/-- `Sequencer::new`: scan to the title's null terminator; its index is
`body_index_offset`, the base added to the 2-byte patch-table offset (read at
base+2) and to each nonzero 2-byte part offset (read at base+4, +6, +8); a
zero part offset leaves the channel absent.  All `u16` address additions
wrap. -/
def sequencerNew (blob : Nat → Nat) : Option SequencerS :=
  match findZero blob 65536 0 with
  | none => none
  | some body_index_offset =>
    some { patch_index :=
             (readShort blob ((body_index_offset + 2) % 65536) + body_index_offset) % 65536,
           part_indexes := (List.range 3).map fun i =>
             let part_index_offset :=
               readShort blob ((body_index_offset + 2 + 2 + i * 2) % 65536)
             if part_index_offset = 0 then none
             else some ((part_index_offset + body_index_offset) % 65536) }

/-- A byte blob from a list (out-of-range reads return 0; the scenarios only
read in range). -/
def blobOfList (l : List Nat) (i : Nat) : Nat :=
  l.getD i 0

/-! ## Scenario fixtures -/

/-- Song data of the Rust `test_part_command_repeat` fixture: part 0 at
`0x0a` runs `E2 02 | 00 | E3 | 00 | E4 | 00 | FF` (repeat-start count 2, a
1-tick rest body, break-if-last, another 1-tick rest, repeat-end, rest,
terminator). -/
def repScenBlob : Nat → Nat :=
  blobOfList [0, 0, 0, 0, 0x0a, 0, 0, 0, 0, 0,
              0xE2, 0x02, 0x00, 0xE3, 0x00, 0xE4, 0x00, 0xFF]

/-- The channel-0 part of the repeat scenario after `n` ticks, with the last
tick's return value. -/
def repTickN : Nat → Option (PartState × Bool)
  | 0 => some (partNew 0 0 0x0a, true)
  | n + 1 =>
    match repTickN n with
    | none => none
    | some (p, _) =>
      match partTick repScenBlob 20 p with
      | none => none
      | some (p1, _, b) => some (p1, b)

/-- C6: `RepeatStack::end` on a nonempty stack: an infinite frame
(`count = 0`) records the cursor as `end`, jumps to `start` and reports an
infinite loop; a frame with `count ≥ 2` decrements, records `end` and jumps
back; a frame with `count = 1` is popped with the cursor untouched.
Consequently, in the count-2 loop scenario the body rest at `0x0c` runs on
ticks 1 and 3 exactly (cursor `0x0d` after each), the break is a no-op on the
first pass (no `end` recorded yet) and fires on the final pass to `0x10`
(recorded by `end` on tick 3), and the stack is empty once the loop
completes. -/
theorem repeatEnd_cases_and_count2_scenario :
    (∀ (fr : Repeat) (rest : List Repeat) (cur : Nat),
      (fr.count = 0 →
        repeatEnd (fr :: rest) cur
          = ({ fr with end_ := some cur } :: rest, fr.start, true)) ∧
      (2 ≤ fr.count →
        repeatEnd (fr :: rest) cur
          = ({ fr with count := fr.count - 1, end_ := some cur } :: rest,
             fr.start, false)) ∧
      (fr.count = 1 → repeatEnd (fr :: rest) cur = (rest, cur, false))) ∧
    ((repTickN 1).map (fun r => (r.1.next_index, r.1.repeats, r.2))
        = some (0x0d, [⟨0x0c, none, 2⟩], true) ∧
      (repTickN 2).map (fun r => (r.1.next_index, r.1.repeats, r.2))
        = some (0x0f, [⟨0x0c, none, 2⟩], true) ∧
      (repTickN 3).map (fun r => (r.1.next_index, r.1.repeats, r.2))
        = some (0x0d, [⟨0x0c, some 0x10, 1⟩], true) ∧
      (repTickN 4).map (fun r => (r.1.next_index, r.1.repeats, r.2))
        = some (0x11, [], true) ∧
      (repTickN 5).map (fun r => (r.1.is_end, r.2)) = some (true, false)) := by
  constructor
  · intro fr rest cur
    refine ⟨fun h => ?_, fun h => ?_, fun h => ?_⟩
    · simp [repeatEnd, h]
    · have h0 : ¬ fr.count = 0 := by omega
      have h1 : fr.count - 1 ≠ 0 := by omega
      simp [repeatEnd, h0, h1]
    · simp [repeatEnd, h]
  · refine ⟨by decide, by decide, by decide, by decide, by decide⟩

theorem repeatEnd_cases_witness :
    repeatEnd [⟨5, none, 0⟩] 9 = ([⟨5, some 9, 0⟩], 5, true) :=
  (repeatEnd_cases_and_count2_scenario.1 ⟨5, none, 0⟩ [] 9).1 rfl

/-- C9: a Repeat-end opcode `0xE4` with an empty repeat stack is a no-op that
does not terminate the channel: `RepeatStack::end` returns `false` and leaves
the cursor unchanged, so `Part::tick` does not bump `infinite_loop_count` and
simply continues interpreting at the next opcode. -/
theorem repeatEnd_empty_noop :
    (∀ cur : Nat, repeatEnd [] cur = ([], cur, false)) ∧
    (∀ (blob : Nat → Nat) (p : PartState) (fuel : Nat),
      p.repeats = [] →
      readByte blob p.next_index = 0xE4 →
      partTickLoop blob (fuel + 1) p
        = partTickLoop blob fuel { p with next_index := (p.next_index + 1) % 65536 }) := by
  constructor
  · intro cur; rfl
  · intro blob p fuel h he
    obtain ⟨pi, env, reps, lfo, ch, ni, len, tie, en, oct, vol, tp, det, ilc⟩ := p
    simp only at h he
    subst h
    simp [partTickLoop, he, repeatEnd]

theorem repeatEnd_empty_noop_witness :
    partTickLoop (blobOfList [0xE4, 0x00]) 6 (partNew 0 0 0)
      = partTickLoop (blobOfList [0xE4, 0x00]) 5
          { partNew 0 0 0 with next_index := (0 + 1) % 65536 } :=
  repeatEnd_empty_noop.2 (blobOfList [0xE4, 0x00]) (partNew 0 0 0) 5 rfl rfl

/-! ## C5: PitchLFO counter underflow -/

lemma lfoUpdate_invariant (x : PitchLFO)
    (hs : 1 ≤ x.speed) (hs2 : x.speed ≤ 255)
    (hd : 2 ≤ x.depth) (hd2 : x.depth ≤ 255)
    (hw : 1 ≤ x.wait_count) (hw2 : x.wait_count ≤ 255)
    (hc : 1 ≤ x.depth_count) (hc2 : x.depth_count ≤ 255) :
    (lfoUpdate x).1.speed = x.speed ∧ (lfoUpdate x).1.depth = x.depth ∧
    1 ≤ (lfoUpdate x).1.wait_count ∧ (lfoUpdate x).1.wait_count ≤ 255 ∧
    1 ≤ (lfoUpdate x).1.depth_count ∧ (lfoUpdate x).1.depth_count ≤ 255 := by
  unfold lfoUpdate
  split_ifs with h1 h2 h3 <;> dsimp only <;> omega

lemma lfoUpdateIter_invariant (x : PitchLFO) (n : Nat)
    (hs : 1 ≤ x.speed) (hs2 : x.speed ≤ 255)
    (hd : 2 ≤ x.depth) (hd2 : x.depth ≤ 255)
    (hw : 1 ≤ x.wait_count) (hw2 : x.wait_count ≤ 255)
    (hc : 1 ≤ x.depth_count) (hc2 : x.depth_count ≤ 255) :
    (lfoUpdateIter x n).speed = x.speed ∧ (lfoUpdateIter x n).depth = x.depth ∧
    1 ≤ (lfoUpdateIter x n).wait_count ∧ (lfoUpdateIter x n).wait_count ≤ 255 ∧
    1 ≤ (lfoUpdateIter x n).depth_count ∧ (lfoUpdateIter x n).depth_count ≤ 255 := by
  induction n with
  | zero => exact ⟨rfl, rfl, hw, hw2, hc, hc2⟩
  | succ n ih =>
    obtain ⟨i1, i2, i3, i4, i5, i6⟩ := ih
    have := lfoUpdate_invariant (lfoUpdateIter x n)
      (by omega) (by omega) (by omega) (by omega) i3 i4 i5 i6
    simpa only [lfoUpdateIter] using
      ⟨by rw [this.1, i1], by rw [this.2.1, i2], this.2.2⟩

/-- C5 (amended): `PitchLFO::update` performs no underflowing `u8` decrement
as long as the configured parameters satisfy `delay ≥ 1`, `speed ≥ 1` and
`depth ≥ 2` — both when the LFO was configured through `set_parameter` and
when it was re-enabled (or disabled) through `set_enable` with such stored
parameters — for any number of once-per-tick `update` calls.  (With
`delay = 0`, `speed = 0` or `depth ≤ 1` an underflow does occur; see the
counterexample.) -/
theorem pitchLFO_no_underflow (l : PitchLFO) (delay speed depth : Nat)
    (disp : Int) (n : Nat) (b : Bool)
    (hd : 1 ≤ delay) (hd2 : delay ≤ 255) (hs : 1 ≤ speed) (hs2 : speed ≤ 255)
    (hp : 2 ≤ depth) (hp2 : depth ≤ 255) :
    lfoUpdateUnderflows
      (lfoUpdateIter (lfoSetParameter l delay speed depth disp) n) = false ∧
    (l.delay = delay → l.speed = speed → l.depth = depth →
      lfoUpdateUnderflows (lfoUpdateIter (lfoSetEnable l b) n) = false) := by
  have main : ∀ x : PitchLFO, x.delay = delay → x.speed = speed → x.depth = depth →
      lfoUpdateUnderflows (lfoUpdateIter (lfoReset x) n) = false := by
    intro x e1 e2 e3
    have hinv := lfoUpdateIter_invariant (lfoReset x) n
      (by simp [lfoReset, e2]; omega) (by simp [lfoReset, e2]; omega)
      (by simp [lfoReset, e3]; omega) (by simp [lfoReset, e3]; omega)
      (by simp [lfoReset, e1]; omega) (by simp [lfoReset, e1]; omega)
      (by simp [lfoReset, e3]; omega) (by simp [lfoReset, e3]; omega)
    have hw : (lfoUpdateIter (lfoReset x) n).wait_count ≠ 0 := by omega
    have hc : (lfoUpdateIter (lfoReset x) n).depth_count ≠ 0 := by omega
    simp [lfoUpdateUnderflows, hw, hc]
  constructor
  · exact main { l with is_enable := true, delay := delay, speed := speed,
                        depth := depth, displacement := disp } rfl rfl rfl
  · intro e1 e2 e3
    exact main { l with is_enable := b } e1 e2 e3

theorem pitchLFO_no_underflow_witness :
    lfoUpdateUnderflows
      (lfoUpdateIter (lfoSetParameter lfoNew 1 1 2 30) 5) = false ∧
    ((lfoNew.delay = 1 → lfoNew.speed = 1 → lfoNew.depth = 2 →
      lfoUpdateUnderflows (lfoUpdateIter (lfoSetEnable lfoNew true) 5) = false)) :=
  pitchLFO_no_underflow lfoNew 1 1 2 30 5 true (by norm_num) (by norm_num)
    (by norm_num) (by norm_num) (by norm_num) (by norm_num)

/-- C5 counterexample: configuring the LFO with `delay = 0` (reachable via
opcode `0xEA` / `set_parameter(0, 1, 2, 5)`) leaves `wait_count = 0`, so the
very first `update()` executes `wait_count -= 1` on 0 — the `u8` underflow
the claim rules out (it wraps `wait_count` to 255 in release builds). -/
theorem pitchLFO_underflow_counterexample :
    (lfoSetParameter lfoNew 0 1 2 5).wait_count = 0 ∧
    lfoUpdateUnderflows (lfoSetParameter lfoNew 0 1 2 5) = true ∧
    (lfoUpdate (lfoSetParameter lfoNew 0 1 2 5)).1.wait_count = 255 := by
  refine ⟨rfl, rfl, rfl⟩

/-! ## C8: tone-period application -/

/-- C8 (amended): every value a `Part` passes to `set_tone_period` is, by
construction of `apply_tone_period`,
`clamp(wrap_i16(base_tone_period + detune + lfo_effect) >> octave, 1, 4095)`
— the three-term sum is `i16` arithmetic, so it wraps on overflow — and in
particular always lies in the `[1, 4095]` range the chip-sink contract
requires.  Whenever the exact integer sum fits in `i16` (which holds for
every combination the overflow cannot reach), the emitted value coincides
with the claim's exact-integer formula. -/
theorem partTonePeriod_clamped (p : PartState) :
    partToneEvent p = PsgEvent.setTonePeriod p.channel_number
      (applyTonePeriodVal p.tone_period p.detune p.pitch_lfo.effect p.octave).toNat ∧
    1 ≤ applyTonePeriodVal p.tone_period p.detune p.pitch_lfo.effect p.octave ∧
    applyTonePeriodVal p.tone_period p.detune p.pitch_lfo.effect p.octave ≤ 4095 ∧
    (-32768 ≤ (p.tone_period : Int) + p.detune + p.pitch_lfo.effect →
      (p.tone_period : Int) + p.detune + p.pitch_lfo.effect ≤ 32767 →
      applyTonePeriodVal p.tone_period p.detune p.pitch_lfo.effect p.octave
        = min (max (Int.fdiv ((p.tone_period : Int) + p.detune + p.pitch_lfo.effect)
            (2 ^ p.octave)) 1) 4095) := by
  refine ⟨rfl, ?_, ?_, ?_⟩
  · exact le_min (le_max_right _ _) (by norm_num)
  · exact min_le_right _ _
  · intro h1 h2
    unfold applyTonePeriodVal
    have hw : wrap16 ((p.tone_period : Int) + p.detune + p.pitch_lfo.effect)
        = (p.tone_period : Int) + p.detune + p.pitch_lfo.effect := by
      unfold wrap16; omega
    rw [hw]

theorem partTonePeriod_clamped_witness :
    1 ≤ applyTonePeriodVal 3816 10 0 0 ∧
    applyTonePeriodVal 3816 10 0 0
      = min (max (Int.fdiv ((3816 : Int) + 10 + 0) (2 ^ 0)) 1) 4095 := by
  have h := partTonePeriod_clamped
    ⟨0, envNew, [], lfoNew, 0, 0, 1, false, false, 0, 0, 3816, 10, 0⟩
  exact ⟨h.2.1, h.2.2.2 (by norm_num [lfoNew]) (by norm_num [lfoNew])⟩

/-- C8 counterexample to "computed over the exact integers": with
`base_tone_period = 3816` (table entry 0), `detune = 32000` (any `i16` is
reachable via opcode `0xE9`), `lfo_effect = 0` and `octave = 0`, the `i16`
sum `35816` wraps to `-29720`, so the code emits the clamp floor `1`, while
the exact-integer formula of the claim yields `4095`. -/
theorem partTonePeriod_exact_counterexample :
    applyTonePeriodVal 3816 32000 0 0 = 1 ∧
    min (max (Int.fdiv ((3816 : Int) + 32000 + 0) (2 ^ 0)) 1) 4095 = 4095 ∧
    (1 : Int) ≠ 4095 := by
  refine ⟨by decide, by decide, by decide⟩

set_option maxRecDepth 4000 in
lemma partTickLoop_volume (blob : Nat → Nat)
    (hblob : ∀ i, readByte blob i ≠ 0xE1) :
    ∀ (fuel : Nat) (p : PartState) (r : PartState × List PsgEvent × Bool),
      p.volume ≤ 15 → partTickLoop blob fuel p = some r → r.1.volume ≤ 15 := by
  intro fuel
  induction fuel with
  | zero => intro p r hv h; simp [partTickLoop] at h
  | succ fuel ih =>
    intro p r hv h
    simp only [partTickLoop] at h
    split at h
    · -- rest 0x00-0x7F
      injection h with h
      subst h
      dsimp only
      split <;> exact hv
    · split at h
      · -- note-on 0x80-0xDF
        injection h with h
        subst h
        dsimp only
        split <;> split <;> exact hv
      · -- control opcodes
        split at h
        · -- 0xE0
          split at h
          · simp at h
          · refine ih _ r ?_ h; exact hv
        · -- 0xE1: excluded by hblob
          rename_i heq
          exact absurd heq (hblob _)
        · -- 0xE2
          refine ih _ r ?_ h; exact hv
        · -- 0xE3
          refine ih _ r ?_ h; exact hv
        · -- 0xE4
          refine ih _ r ?_ h; exact hv
        · -- 0xE5
          split at h
          · simp at h
          · rename_i q evs b heq
            injection h with h
            subst h
            have hq := ih _ (q, evs, b) (by exact hv) heq
            exact hq
        · -- 0xE6
          refine ih _ r ?_ h; exact min_le_right _ _
        · -- 0xE7
          refine ih _ r ?_ h; dsimp only; omega
        · -- 0xE9
          refine ih _ r ?_ h; exact hv
        · -- 0xEA
          refine ih _ r ?_ h; exact hv
        · -- 0xEB
          refine ih _ r ?_ h; exact hv
        · -- 0xEC
          split at h
          · simp at h
          · rename_i q evs b heq
            injection h with h
            subst h
            have hq := ih _ (q, evs, b) (by exact hv) heq
            exact hq
        · -- terminator
          injection h with h
          subst h
          exact hv

/-- C2 (amended): `channel_volume` stays in `[0, 15]` under every opcode
except the Set-volume opcode `0xE1`: for programs that never execute `0xE1`,
any `Part::tick` from a state with `channel_volume ≤ 15` (every reachable
state, since `Part::new` starts at 0) ends with `channel_volume ≤ 15` — in
particular `0xE6` clamps to at most 15 and `0xE7` floors at 0.  Opcode
`0xE1`, however, stores its operand byte raw and unclamped, so it can set any
value up to 255. -/
theorem partVolume_clamped (blob : Nat → Nat) (p : PartState) (fuel : Nat)
    (r : PartState × List PsgEvent × Bool)
    (hblob : ∀ i, readByte blob i ≠ 0xE1)
    (hv : p.volume ≤ 15)
    (h : partTick blob fuel p = some r) :
    r.1.volume ≤ 15 ∧
    (∀ (blob2 : Nat → Nat) (q : PartState) (fuel2 : Nat),
      readByte blob2 q.next_index = 0xE1 →
      q.next_index + 2 < 65536 →
      partTickLoop blob2 (fuel2 + 1) q
        = partTickLoop blob2 fuel2
            { q with volume := readByte blob2 (q.next_index + 1),
                     next_index := q.next_index + 2 }) := by
  constructor
  · simp only [partTick] at h
    split at h
    · injection h with h; subst h; exact hv
    · split at h
      · injection h with h; subst h; exact hv
      · exact partTickLoop_volume blob hblob fuel _ r (by exact hv) h
  · intro blob2 q fuel2 he hlt
    obtain ⟨pi, env, reps, lfo, ch, ni, len, tie, en, oct, vol, tp, det, ilc⟩ := q
    simp only at he hlt
    have m1 : (ni + 1) % 65536 = ni + 1 := Nat.mod_eq_of_lt (by omega)
    have m2 : (ni + 1 + 1) % 65536 = ni + 2 := Nat.mod_eq_of_lt (by omega)
    simp [partTickLoop, he, m1, m2]

theorem partVolume_clamped_witness :
    (partNew 0 0 0).volume ≤ 15 ∧
    partTick (blobOfList []) 3 (partNew 0 0 0)
      = some (⟨0, ⟨0, .release, 255, 255, 0, 0, 0, 255⟩, [], lfoNew, 0, 1, 1,
               false, false, 0, 0, 0, 0, 0⟩, [], true) ∧
    (⟨0, ⟨0, .release, 255, 255, 0, 0, 0, 255⟩, [], lfoNew, 0, 1, 1,
      false, false, 0, 0, 0, 0, 0⟩ : PartState).volume ≤ 15 :=
  ⟨by norm_num [partNew],
   by decide,
   (partVolume_clamped (blobOfList []) (partNew 0 0 0) 3
      (⟨0, ⟨0, .release, 255, 255, 0, 0, 0, 255⟩, [], lfoNew, 0, 1, 1,
        false, false, 0, 0, 0, 0, 0⟩, [], true)
      (fun i => by simp [readByte, blobOfList])
      (by norm_num [partNew]) (by decide)).1⟩

/-- C2 counterexample: executing opcode `0xE1` with operand byte `0xFF`
leaves `channel_volume = 255`, outside `[0, 15]`, and `tick` still reports
the channel as playing. -/
theorem partVolume_counterexample :
    (partTick (blobOfList [0xE1, 0xFF, 0x00]) 5 (partNew 0 0 0)).map
        (fun r => (r.1.volume, r.2.2)) = some (255, true) ∧
    ¬ (255 ≤ 15) :=
  ⟨by decide, by decide⟩

lemma readByte_lt_256 (blob : Nat → Nat) (i : Nat) : readByte blob i < 256 :=
  Nat.mod_lt _ (by norm_num)

set_option maxRecDepth 4000 in
lemma partTickLoop_length (blob : Nat → Nat)
    (hdur : ∀ i, 0x80 ≤ readByte blob i → readByte blob i ≤ 0xDF →
      readByte blob ((i + 1) % 65536) ≠ 0) :
    ∀ (fuel : Nat) (p : PartState) (r : PartState × List PsgEvent × Bool),
      partTickLoop blob fuel p = some r → r.2.2 = true →
      1 ≤ r.1.length ∧ r.1.length ≤ 255 ∧ r.1.is_end = p.is_end := by
  intro fuel
  induction fuel with
  | zero => intro p r h hb; simp [partTickLoop] at h
  | succ fuel ih =>
    intro p r h hb
    simp only [partTickLoop] at h
    split at h
    · -- rest 0x00-0x7F: length := data + 1 ∈ [1, 128]
      rename_i hdata
      injection h with h
      subst h
      dsimp only
      split <;> exact ⟨by omega, by omega, rfl⟩
    · split at h
      · -- note-on: length := the following duration byte, nonzero by hdur
        rename_i h1 h2
        injection h with h
        subst h
        have hd := hdur p.next_index (by omega) (by omega)
        have hlt := readByte_lt_256 blob ((p.next_index + 1) % 65536)
        split <;> split <;>
          exact ⟨by dsimp only; omega, by dsimp only; omega, by dsimp only⟩
      · split at h
        · -- 0xE0
          split at h
          · simp at h
          · have hr := ih _ r h hb; exact hr
        · -- 0xE1
          have hr := ih _ r h hb; exact hr
        · have hr := ih _ r h hb; exact hr
        · have hr := ih _ r h hb; exact hr
        · have hr := ih _ r h hb; exact hr
        · -- 0xE5
          split at h
          · simp at h
          · rename_i q evs b heq
            injection h with h
            subst h
            have hr := ih _ (q, evs, b) heq (by exact hb); exact hr
        · have hr := ih _ r h hb; exact hr
        · have hr := ih _ r h hb; exact hr
        · have hr := ih _ r h hb; exact hr
        · have hr := ih _ r h hb; exact hr
        · have hr := ih _ r h hb; exact hr
        · -- 0xEC
          split at h
          · simp at h
          · rename_i q evs b heq
            injection h with h
            subst h
            have hr := ih _ (q, evs, b) heq (by exact hb); exact hr
        · -- terminator: breaks with false, excluded by hb
          injection h with h
          subst h
          simp at hb

/-- C3 (amended): for programs in which every note-on duration byte is
nonzero (every byte in the note range `0x80`-`0xDF` is followed by a nonzero
byte), an active part with `1 ≤ remaining_ticks ≤ 255` that ticks and stays
active again has `1 ≤ remaining_ticks ≤ 255`: a rest refills with `value + 1
≥ 1` and a note-on with its (nonzero) duration byte, synchronously within the
same tick, so the decrement at the start of the next tick cannot underflow.
The claim's extension to a note-on duration byte of `0x00` is false: such a
note leaves `remaining_ticks = 0` with the channel still active (see the
counterexample). -/
theorem partRemainingTicks_refilled (blob : Nat → Nat) (p : PartState)
    (fuel : Nat) (r : PartState × List PsgEvent × Bool)
    (hdur : ∀ i, 0x80 ≤ readByte blob i → readByte blob i ≤ 0xDF →
      readByte blob ((i + 1) % 65536) ≠ 0)
    (hend : p.is_end = false) (hlo : 1 ≤ p.length) (hhi : p.length ≤ 255)
    (h : partTick blob fuel p = some r) (hb : r.2.2 = true) :
    1 ≤ r.1.length ∧ r.1.length ≤ 255 ∧ r.1.is_end = false := by
  simp only [partTick, hend] at h
  by_cases hne : (p.length + 255) % 256 ≠ 0
  · rw [if_pos hne] at h
    injection h with h
    subst h
    exact ⟨by dsimp only; omega, by dsimp only; omega, by dsimp only⟩
  · rw [if_neg hne] at h
    have hr := partTickLoop_length blob hdur fuel _ r h hb
    refine ⟨hr.1, hr.2.1, ?_⟩
    rw [hr.2.2]

theorem partRemainingTicks_refilled_witness :
    1 ≤ (partNew 0 0 0).length ∧
    (1 ≤ (⟨0, ⟨0, .release, 255, 255, 0, 0, 0, 255⟩, [], lfoNew, 0, 1, 1,
           false, false, 0, 0, 0, 0, 0⟩ : PartState).length ∧
      (⟨0, ⟨0, .release, 255, 255, 0, 0, 0, 255⟩, [], lfoNew, 0, 1, 1,
        false, false, 0, 0, 0, 0, 0⟩ : PartState).length ≤ 255 ∧
      (⟨0, ⟨0, .release, 255, 255, 0, 0, 0, 255⟩, [], lfoNew, 0, 1, 1,
        false, false, 0, 0, 0, 0, 0⟩ : PartState).is_end = false) :=
  ⟨by norm_num [partNew],
   partRemainingTicks_refilled (blobOfList []) (partNew 0 0 0) 3
    (⟨0, ⟨0, .release, 255, 255, 0, 0, 0, 255⟩, [], lfoNew, 0, 1, 1,
      false, false, 0, 0, 0, 0, 0⟩, [], true)
    (fun i h1 h2 => by simp [readByte, blobOfList] at h1)
    rfl (by norm_num [partNew]) (by norm_num [partNew]) (by decide) rfl⟩

/-- C3 counterexample: a note-on opcode `0x80` whose duration byte is `0x00`
returns from `tick` with the channel still active but `remaining_ticks = 0`;
the next tick's `u8` decrement then underflows, wrapping the duration to 255
in release builds. -/
theorem partRemainingTicks_counterexample :
    (partTick (blobOfList [0x80, 0x00]) 5 (partNew 0 0 0)).map
        (fun r => (r.1.length, r.1.is_end, r.2.2)) = some (0, false, true) ∧
    ((partTick (blobOfList [0x80, 0x00]) 5 (partNew 0 0 0)).bind
        (fun r => partTick (blobOfList [0x80, 0x00]) 5 r.1)).map
        (fun r => (r.1.length, r.2.2)) = some (255, true) :=
  ⟨by decide, by decide⟩

/-- Song data for the tie scenario: note `0x80` (1 tick) followed by the tie
marker `0xE8`, then a 1-tick rest, then note `0x81` (1 tick), terminator. -/
def tieScenBlob : Nat → Nat :=
  blobOfList [0x80, 0x01, 0xE8, 0x00, 0x81, 0x01, 0xFF]

/-- The channel-0 part of the tie scenario after `n` ticks. -/
def tieTickN : Nat → Option (PartState × Bool)
  | 0 => some (partNew 0 0 0, true)
  | n + 1 =>
    match tieTickN n with
    | none => none
    | some (p, _) =>
      match partTick tieScenBlob 20 p with
      | none => none
      | some (p1, _, b) => some (p1, b)

set_option maxRecDepth 4000 in
/-- C10: a rest opcode (`0x00`-`0x7F`) leaves `is_tied` unchanged (releasing
the envelope only when the flag is clear, and leaving the envelope untouched
when it is set), while a note-on (`0x80`-`0xDF`) consumed with `is_tied` set
skips `attack()` and the LFO reset (envelope and LFO state are unchanged).
In the scenario, the tie set by the `0xE8` marker survives the intervening
rest, and the note after the rest runs with the flag still set before
clearing it. -/
theorem rest_preserves_tie :
    (∀ (blob : Nat → Nat) (p : PartState) (fuel : Nat)
        (r : PartState × List PsgEvent × Bool),
      readByte blob p.next_index ≤ 0x7F →
      partTickLoop blob (fuel + 1) p = some r →
      r.1.is_tie = p.is_tie ∧
      r.1.length = readByte blob p.next_index + 1 ∧
      (p.is_tie = true → r.1.envelope = p.envelope) ∧
      (p.is_tie = false → r.1.envelope = envRelease p.envelope)) ∧
    (∀ (blob : Nat → Nat) (p : PartState) (fuel : Nat)
        (r : PartState × List PsgEvent × Bool),
      0x80 ≤ readByte blob p.next_index → readByte blob p.next_index ≤ 0xDF →
      p.is_tie = true →
      partTickLoop blob (fuel + 1) p = some r →
      r.1.envelope = p.envelope ∧ r.1.pitch_lfo = p.pitch_lfo) ∧
    ((tieTickN 1).map (fun x => (x.1.is_tie, x.1.next_index)) = some (true, 3) ∧
      (tieTickN 2).map (fun x => (x.1.is_tie, x.1.next_index)) = some (true, 4) ∧
      (tieTickN 2).map (fun x => x.1.envelope)
        = (tieTickN 1).map (fun x => x.1.envelope) ∧
      (tieTickN 3).map (fun x => (x.1.is_tie, x.1.tone_period)) = some (false, 3602) ∧
      (tieTickN 3).map (fun x => (x.1.envelope, x.1.pitch_lfo))
        = (tieTickN 1).map (fun x => (x.1.envelope, x.1.pitch_lfo))) := by
  refine ⟨?_, ?_, by decide, by decide, by decide, by decide, by decide⟩
  · intro blob p fuel r hdata h
    simp only [partTickLoop] at h
    rw [if_pos hdata] at h
    injection h with h
    subst h
    by_cases ht : p.is_tie = true
    · refine ⟨?_, ?_, ?_, ?_⟩ <;> simp [ht]
    · refine ⟨?_, ?_, ?_, ?_⟩ <;> simp [ht]
  · intro blob p fuel r h1 h2 ht h
    simp only [partTickLoop] at h
    rw [if_neg (by omega), if_pos (by omega)] at h
    injection h with h
    subst h
    simp only [ht, if_true]
    constructor <;> split <;> rfl

/-! ## C4: Sequencer header parsing -/

lemma findZero_first (blob : Nat → Nat) (t : Nat) (hz : readByte blob t = 0)
    (hnz : ∀ j, j < t → readByte blob j ≠ 0) :
    ∀ (fuel i : Nat), i ≤ t → t < i + fuel → t < 65536 →
      findZero blob fuel i = some t := by
  intro fuel
  induction fuel with
  | zero => intro i h1 h2 h3; omega
  | succ fuel ih =>
    intro i h1 h2 h3
    simp only [findZero]
    by_cases hb : readByte blob i = 0
    · have hit : i = t := by
        by_contra hne
        exact hnz i (by omega) hb
      rw [if_pos hb, hit, Nat.mod_eq_of_lt h3]
    · rw [if_neg hb]
      have hit : i < t := by
        rcases Nat.lt_or_ge i t with hlt | hge
        · exact hlt
        · have : i = t := by omega
          exact absurd (this ▸ hz) hb
      rw [Nat.mod_eq_of_lt (show i + 1 < 65536 by omega)]
      exact ih (i + 1) (by omega) (by omega) h3

/-- The header of the Rust `test_header` fixture (and of the claim):
title "ABC", terminator, flag byte, patch offset `0x3412`, part offsets
`0x7856`, `0xbc9a`, `0x0000`. -/
def headerBlob : Nat → Nat :=
  blobOfList [0x41, 0x42, 0x43, 0x00, 0x00, 0x12, 0x34, 0x56, 0x78,
              0x9a, 0xbc, 0x00, 0x00]

/-- C4 (amended): the relative base the code adds to the 2-byte offsets is
the address OF the title's null terminator itself (`t`, the index at which
the scan stops), not the address immediately after it: the patch-table
address is `read_short(t + 2) + t`, and part `i`'s start address is
`read_short(t + 4 + 2i) + t` when that offset is nonzero, absent when it is
zero (`u16` wraparound on the additions).  For the claim's example header the
terminator is at index 3 and the base is 3, so the patch address is
`0x3412 + 3`, not `0x3412 + 4`. -/
theorem sequencer_header_parse (blob : Nat → Nat) (t : Nat)
    (hsz : t + 10 < 65536) (hz : readByte blob t = 0)
    (hnz : ∀ j, j < t → readByte blob j ≠ 0) :
    sequencerNew blob = some
      { patch_index := (readShort blob (t + 2) + t) % 65536,
        part_indexes := [
          if readShort blob (t + 4) = 0 then none
          else some ((readShort blob (t + 4) + t) % 65536),
          if readShort blob (t + 6) = 0 then none
          else some ((readShort blob (t + 6) + t) % 65536),
          if readShort blob (t + 8) = 0 then none
          else some ((readShort blob (t + 8) + t) % 65536)] } := by
  unfold sequencerNew
  rw [findZero_first blob t hz hnz 65536 0 (by omega) (by omega) (by omega)]
  have m2 : (t + 2) % 65536 = t + 2 := by omega
  have m4 : (t + 2 + 2 + 0 * 2) % 65536 = t + 4 := by omega
  have m6 : (t + 2 + 2 + 1 * 2) % 65536 = t + 6 := by omega
  have m8 : (t + 2 + 2 + 2 * 2) % 65536 = t + 8 := by omega
  simp [List.range_succ, m2, m4, m6, m8]

theorem sequencer_header_parse_witness :
    sequencerNew headerBlob = some
      { patch_index := (readShort headerBlob (3 + 2) + 3) % 65536,
        part_indexes := [
          if readShort headerBlob (3 + 4) = 0 then none
          else some ((readShort headerBlob (3 + 4) + 3) % 65536),
          if readShort headerBlob (3 + 6) = 0 then none
          else some ((readShort headerBlob (3 + 6) + 3) % 65536),
          if readShort headerBlob (3 + 8) = 0 then none
          else some ((readShort headerBlob (3 + 8) + 3) % 65536)] } :=
  sequencer_header_parse headerBlob 3 (by norm_num) rfl
    (by intro j hj; interval_cases j <;> decide)

/-- C4 counterexample: for the claim's example header the code (and the
crate's own `test_header` test) computes patch address `0x3412 + 3` — the
base is the terminator's index 3, not the index 4 "immediately after it"
asserted by the claim. -/
theorem sequencer_base_counterexample :
    (sequencerNew headerBlob).map (fun s => s.patch_index) = some (0x3412 + 3) ∧
    (sequencerNew headerBlob).map (fun s => s.part_indexes)
      = some [some (0x7856 + 3), some (0xbc9a + 3), none] ∧
    0x3412 + 3 ≠ 0x3412 + 4 :=
  ⟨by decide, by decide, by decide⟩

/-! ## C7: max_loop_count policy -/

/-- A one-channel song that loops forever: repeat-start with count 0
(infinite), a 1-tick rest body, repeat-end. -/
def infLoopBlob : Nat → Nat :=
  blobOfList [0xE2, 0x00, 0x00, 0xE4]

/-- A play context for `infLoopBlob` at sample rate 60 (one sample per tick)
with `max_loop_count = Some(1)`. -/
def infLoopPC : PlayContext :=
  ⟨[some (partNew 0 0 0), none, none], sptNew 60, some 1⟩

/-- C7 (amended): with `max_loop_count = Some(n)`, at the first tick boundary
at which the maximal `infinite_loop_count` has reached `n`, every present
channel receives a volume-0 write and is marked Ended, sample production
stops at that boundary with no further music tick executed (the parts are
bit-for-bit unchanged except for the Ended mark, and the rate converter is
not advanced), and the call returns at most the requested number of samples —
strictly fewer whenever the request extends past that boundary, but exactly
the requested count when the buffer ends at the boundary (see the
counterexample). -/
theorem maxLoopCount_silences_and_stops (blob : Nat → Nat) (pc : PlayContext)
    (n len fuel : Nat)
    (hmax : pc.max_loop_count = some n)
    (hilc : n ≤ pcInfiniteLoopCount pc)
    (hspt : pc.spt.samples = 0)
    (hlen : len ≠ 0) :
    (nextSamples blob (fuel + 1) pc len = some (0, (pcEnd pc).1, (pcEnd pc).2) ∧
      (pcEnd pc).1.parts
        = pc.parts.map (Option.map fun p => { p with is_end := true }) ∧
      (pcEnd pc).1.spt = pc.spt ∧
      (pcEnd pc).2
        = pc.parts.filterMap (Option.map fun p => PsgEvent.setVolume p.channel_number 0)) ∧
    ((nextSamples infLoopBlob 50 infLoopPC 100).map
        (fun r => (r.1, r.2.1.parts.map (Option.map fun p => p.is_end), r.2.2))
      = some (3, [some true, none, none], [PsgEvent.setVolume 0 0]) ∧
      3 < 100) := by
  refine ⟨⟨?_, rfl, rfl, rfl⟩, by decide, by norm_num⟩
  obtain ⟨parts, spt, mlc⟩ := pc
  obtain ⟨rem, q, e, smp⟩ := spt
  simp only at hmax hspt hilc
  subst hmax
  subst hspt
  simp [nextSamples, sptConsume, pcApplyMaxLoopCount, pcEnd, hlen, hilc]

theorem maxLoopCount_silences_and_stops_witness :
    infLoopPC.max_loop_count = some 1 ∧
    1 ≤ pcInfiniteLoopCount
        ⟨[some { partNew 0 0 0 with infinite_loop_count := 1 }, none, none],
         ⟨6, 1, -5976, 0⟩, some 1⟩ ∧
    nextSamples infLoopBlob 8
        ⟨[some { partNew 0 0 0 with infinite_loop_count := 1 }, none, none],
         ⟨6, 1, -5976, 0⟩, some 1⟩ 7
      = some (0,
          (pcEnd ⟨[some { partNew 0 0 0 with infinite_loop_count := 1 }, none, none],
                  ⟨6, 1, -5976, 0⟩, some 1⟩).1,
          (pcEnd ⟨[some { partNew 0 0 0 with infinite_loop_count := 1 }, none, none],
                  ⟨6, 1, -5976, 0⟩, some 1⟩).2) :=
  ⟨rfl, by decide,
   ((maxLoopCount_silences_and_stops infLoopBlob
      ⟨[some { partNew 0 0 0 with infinite_loop_count := 1 }, none, none],
       ⟨6, 1, -5976, 0⟩, some 1⟩ 1 7 7 rfl (by decide) rfl (by norm_num)).1).1⟩

/-- C7 counterexample to "returning fewer samples than requested": with the
infinite-loop song and `max_loop_count = Some(1)`, requesting exactly the 3
samples that precede the terminating boundary silences every channel (the
limit is hit during the call) yet returns exactly 3 = requested samples, not
fewer. -/
theorem maxLoopCount_exact_buffer_counterexample :
    (nextSamples infLoopBlob 50 infLoopPC 3).map
        (fun r => (r.1, r.2.1.parts.map (Option.map fun p => p.is_end), r.2.2))
      = some (3, [some true, none, none], [PsgEvent.setVolume 0 0]) ∧
    ¬ (3 < 3) :=
  ⟨by decide, by decide⟩

theorem rest_preserves_tie_witness :
    (⟨0, ⟨0, .release, 255, 255, 0, 0, 0, 255⟩, [], lfoNew, 0, 1, 6,
      false, false, 0, 0, 0, 0, 0⟩ : PartState).is_tie = (partNew 0 0 0).is_tie ∧
    (⟨0, ⟨0, .release, 255, 255, 0, 0, 0, 255⟩, [], lfoNew, 0, 1, 6,
      false, false, 0, 0, 0, 0, 0⟩ : PartState).length
      = readByte (blobOfList [0x05]) (partNew 0 0 0).next_index + 1 ∧
    ((partNew 0 0 0).is_tie = true →
      (⟨0, ⟨0, .release, 255, 255, 0, 0, 0, 255⟩, [], lfoNew, 0, 1, 6,
        false, false, 0, 0, 0, 0, 0⟩ : PartState).envelope = (partNew 0 0 0).envelope) ∧
    ((partNew 0 0 0).is_tie = false →
      (⟨0, ⟨0, .release, 255, 255, 0, 0, 0, 255⟩, [], lfoNew, 0, 1, 6,
        false, false, 0, 0, 0, 0, 0⟩ : PartState).envelope
        = envRelease (partNew 0 0 0).envelope) :=
  rest_preserves_tie.1 (blobOfList [0x05]) (partNew 0 0 0) 5
    (⟨0, ⟨0, .release, 255, 255, 0, 0, 0, 255⟩, [], lfoNew, 0, 1, 6,
      false, false, 0, 0, 0, 0, 0⟩, [], true)
    (by decide) (by decide)
